import Mathlib

/-!
Verification of the end-to-end encryption layer of the webmail client.

Two components are embedded:

* the client-side `EncryptionService`
  (src/src/components/auth/security/EncryptionService.ts), a wrapper around
  OpenPGP.js.  The OpenPGP.js library itself is external code, so its
  primitives (`readKey`, `readPrivateKey`, `decryptKey`, `createMessage`,
  `readMessage`, `encrypt`, `decrypt`) are modelled symbolically: armored
  blobs are an inductive datatype recording exactly the information the
  library guarantees to round-trip, and each primitive succeeds or fails
  under the library's documented conditions.  The repository's own methods
  (`encryptMessage`, `decryptMessage`, `decryptFile`, ...) are translated
  statement by statement, including their catch-all error translation.

* the server-side `EncryptionService`
  (src/server/src/controllers/services/encryption.service.ts), a wrapper
  around Node's `crypto` (PBKDF2 + AES-256-GCM).  Node's primitives are
  external code and are modelled by an abstract structure `GcmSpec` whose
  fields state only what the library documents (decryption inverts
  encryption under the same key/IV, the auth tag is 16 bytes, PBKDF2
  yields the requested 32 bytes).  The repository's envelope construction
  and slicing are translated byte for byte; random `salt`/`iv` inputs are
  passed explicitly (randomness as an oracle argument).
-/

namespace Webmail

/-! ## Symbolic model of the OpenPGP.js primitives -/

/-- An armored text blob as handled by OpenPGP.js: a public key bound to a
key id, a private key protected by a passphrase, an encrypted message
(addressed to a recipient key, carrying a body and optionally the id of the
signing key), or unparseable junk. -/
inductive Armored where
  | pub (kid : Nat)
  | priv (kid : Nat) (pass : String)
  | msg (rcpt : Nat) (body : String) (signer : Option Nat)
  | junk (s : String)
deriving DecidableEq

/-- A parsed public key (openpgp.readKey result). -/
structure PubKey where
  kid : Nat
deriving DecidableEq

/-- A parsed, still passphrase-locked private key (openpgp.readPrivateKey
result). -/
structure LockedPriv where
  kid : Nat
  pass : String
deriving DecidableEq

/-- An unlocked private key (openpgp.decryptKey result). -/
structure UnlockedPriv where
  kid : Nat
deriving DecidableEq

/-- openpgp.readKey: parses an armored public key, rejects anything else. -/
def readKey : Armored → Except String PubKey
  | .pub k => .ok ⟨k⟩
  | _ => .error "Misformed armored text"

/-- openpgp.readPrivateKey: parses an armored private key. -/
def readPrivateKey : Armored → Except String LockedPriv
  | .priv k p => .ok ⟨k, p⟩
  | _ => .error "Misformed armored text"

/-- openpgp.decryptKey: unlocks a private key; fails on a wrong
passphrase. -/
def decryptKey (lk : LockedPriv) (passphrase : String) : Except String UnlockedPriv :=
  if passphrase = lk.pass then .ok ⟨lk.kid⟩ else .error "Incorrect key passphrase"

/-- A parsed encrypted message (openpgp.readMessage result). -/
structure Msg where
  rcpt : Nat
  body : String
  signer : Option Nat
deriving DecidableEq

/-- openpgp.readMessage: parses an armored message. -/
def readMessage : Armored → Except String Msg
  | .msg r b s => .ok ⟨r, b, s⟩
  | _ => .error "Misformed armored text"

/-- The outcome of one entry of the `signatures` array returned by
openpgp.decrypt: `resolved` records whether `await signatures[0].verified`
resolves (true) or rejects (false). -/
structure SigResult where
  resolved : Bool
deriving DecidableEq

/-- openpgp.encrypt: produces a message addressed to the encryption key,
carrying the signing key's id when signing keys were supplied. -/
def pgpEncrypt (body : String) (ek : PubKey) (sk : Option UnlockedPriv) : Armored :=
  .msg ek.kid body (sk.map UnlockedPriv.kid)

/-- Resolution of a signature check: `verified` resolves only when a
verification key was supplied and it matches the signing key. -/
def sigCheck (vk : Option PubKey) (sid : Nat) : SigResult :=
  ⟨match vk with
    | some k => k.kid == sid
    | none => false⟩

/-- openpgp.decrypt on a message: succeeds when the decryption key matches
the recipient; the `signatures` array has one entry per signature carried
by the message. -/
def pgpDecrypt (m : Msg) (dk : UnlockedPriv) (vk : Option PubKey) :
    Except String (String × List SigResult) :=
  if m.rcpt = dk.kid then
    .ok (m.body,
      match m.signer with
      | none => []
      | some sid => [sigCheck vk sid])
  else .error "Session key decryption failed"

/-! ## Client EncryptionService (message path)

Translated from src/src/components/auth/security/EncryptionService.ts.
Optional string parameters are `Option`s; JavaScript truthiness of the
passphrase is significant (`if (senderPrivateKey && passphrase)`): an
empty-string passphrase is falsy, so it also skips signing. -/

/-- The `try ... catch` wrapper every method of the service uses: a
successful body is returned unchanged, any thrown error is replaced by the
method's single generic error message. -/
def catchAll {α : Type} (msg : String) : Except String α → Except String α
  | .ok v => .ok v
  | .error _ => .error msg

/-- The inline `if (senderPublicKey) { ... readKey ... }` step of the
decrypt methods: parse the optional verification key. -/
def parseVerificationKey : Option Armored → Except String (Option PubKey)
  | some s => do
    let k ← readKey s
    pure (some k)
  | none => pure none

/-- The `verified` computation of the decrypt methods: false for an empty
`signatures` array, otherwise whether `await signatures[0].verified`
resolved. -/
def firstSigResolved : List SigResult → Bool
  | [] => false
  | s :: _ => s.resolved

/-- Body of `encryptMessage` before the catch-all: read the recipient key;
when both a sender private key and a truthy passphrase are present, unlock
the key and sign; otherwise encrypt without signing. -/
def encryptMessageResult (message : String) (recipientPublicKey : Armored)
    (senderPrivateKey : Option Armored) (passphrase : Option String) :
    Except String Armored := do
  let publicKey ← readKey recipientPublicKey
  match senderPrivateKey, passphrase with
  | some sk, some p =>
    if p = "" then
      pure (pgpEncrypt message publicKey none)
    else do
      let lk ← readPrivateKey sk
      let uk ← decryptKey lk p
      pure (pgpEncrypt message publicKey (some uk))
  | _, _ => pure (pgpEncrypt message publicKey none)

/-- `EncryptionService.encryptMessage`: any internal failure is caught and
rethrown as the single generic error. -/
def encryptMessage (message : String) (recipientPublicKey : Armored)
    (senderPrivateKey : Option Armored) (passphrase : Option String) :
    Except String Armored :=
  catchAll "Kunne ikke kryptere beskeden"
    (encryptMessageResult message recipientPublicKey senderPrivateKey passphrase)

/-- Result record of `decryptMessage`. -/
structure DecryptResult where
  message : String
  verified : Bool
deriving DecidableEq

/-- Body of `decryptMessage` before the catch-all: unlock the private key,
parse the message, optionally parse the sender's key, decrypt, then compute
`verified` from the first signature's resolution (staying false when the
`signatures` array is empty or the await rejects). -/
def decryptMessageResult (encryptedMessage : Armored) (privateKey : Armored)
    (passphrase : String) (senderPublicKey : Option Armored) :
    Except String DecryptResult := do
  let lk ← readPrivateKey privateKey
  let dk ← decryptKey lk passphrase
  let m ← readMessage encryptedMessage
  let vk ← parseVerificationKey senderPublicKey
  let r ← pgpDecrypt m dk vk
  pure ⟨r.1, firstSigResolved r.2⟩

/-- `EncryptionService.decryptMessage`: any internal failure is caught and
rethrown as the single generic error. -/
def decryptMessage (encryptedMessage : Armored) (privateKey : Armored)
    (passphrase : String) (senderPublicKey : Option Armored) :
    Except String DecryptResult :=
  catchAll "Kunne ikke dekryptere beskeden"
    (decryptMessageResult encryptedMessage privateKey passphrase senderPublicKey)

/-! ## Client EncryptionService (file path) -/

/-- A parsed binary file message: recipient key id, payload bytes, the
embedded filename (empty string when the sender embedded none, matching
OpenPGP.js's default), and optionally the signing key id. -/
structure FileMsg where
  rcpt : Nat
  data : List Nat
  filename : String
  signer : Option Nat
deriving DecidableEq

/-- A binary blob as passed to openpgp.readMessage with `binaryMessage`:
either a parseable encrypted file or junk bytes. -/
inductive BinBlob where
  | file (f : FileMsg)
  | junk (bytes : List Nat)
deriving DecidableEq

/-- openpgp.readMessage on binary input. -/
def readBinMessage : BinBlob → Except String FileMsg
  | .file f => .ok f
  | _ => .error "Misformed binary message"

/-- openpgp.decrypt on a binary file message (format: binary): returns the
payload, the embedded filename and the `signatures` array. -/
def pgpDecryptBin (f : FileMsg) (dk : UnlockedPriv) (vk : Option PubKey) :
    Except String (List Nat × String × List SigResult) :=
  if f.rcpt = dk.kid then
    .ok (f.data, f.filename,
      match f.signer with
      | none => []
      | some sid => [sigCheck vk sid])
  else .error "Session key decryption failed"

/-- Result record of `decryptFile`. -/
structure FileResult where
  decryptedData : List Nat
  filename : String
  verified : Bool
deriving DecidableEq

/-- Body of `decryptFile` before the catch-all.  The returned filename is
`filename || 'decrypted_file'`: the empty (falsy) string falls back to the
fixed name. -/
def decryptFileResult (encryptedData : BinBlob) (privateKey : Armored)
    (passphrase : String) (senderPublicKey : Option Armored) :
    Except String FileResult := do
  let lk ← readPrivateKey privateKey
  let dk ← decryptKey lk passphrase
  let f ← readBinMessage encryptedData
  let vk ← parseVerificationKey senderPublicKey
  let r ← pgpDecryptBin f dk vk
  pure ⟨r.1, if r.2.1 = "" then "decrypted_file" else r.2.1, firstSigResolved r.2.2⟩

/-- `EncryptionService.decryptFile`: any internal failure is caught and
rethrown as the single generic error. -/
def decryptFile (encryptedData : BinBlob) (privateKey : Armored)
    (passphrase : String) (senderPublicKey : Option Armored) :
    Except String FileResult :=
  catchAll "Kunne ikke dekryptere filen"
    (decryptFileResult encryptedData privateKey passphrase senderPublicKey)

/-- True when an armored blob is a message carrying an embedded
signature. -/
def carriesSig : Armored → Bool
  | .msg _ _ (some _) => true
  | _ => false

/-- The filename embedded in a binary blob (empty when none). -/
def embeddedFilename : BinBlob → String
  | .file f => f.filename
  | .junk _ => ""

/-! ## Server-side symmetric EncryptionService

Translated from src/server/src/controllers/services/encryption.service.ts.
Buffers are byte lists; the process-wide `config.encryption.secret` is the
explicit `secret` argument; the `crypto.randomBytes` salt and IV are
explicit oracle arguments of `encrypt`.  The hex encoding applied to the
final envelope (and undone first thing by `decrypt`) is a bijection on
byte buffers and is elided: the envelope is modelled at buffer level. -/

/-- Byte buffers (Node `Buffer`) as lists of naturals. -/
abbrev Bytes : Type := List Nat

/-- Protocol constant `saltLength` of the service. -/
def saltLength : Nat := 64

/-- Protocol constant `ivLength` of the service. -/
def ivLength : Nat := 16

/-- Protocol constant `tagLength` of the service. -/
def tagLength : Nat := 16

/-- Protocol constant `keyLength` of the service. -/
def keyLength : Nat := 32

/-- Abstract interface of the Node crypto primitives the service calls:
`pbkdf2` is `crypto.pbkdf2Sync` (password, salt ↦ `keyLength`-byte key;
the iteration count and digest are fixed by the service and folded into
the abstract function), `enc`/`dec` are the AES-256-GCM keystream
(cipher.update/final), and `authTag` is the GCM authentication tag over
the ciphertext (`cipher.getAuthTag`, checked by `decipher.final`).  The
propositional fields state exactly what the library documents: PBKDF2
returns the requested 32 bytes, GCM decryption inverts encryption under
the same key and IV, and the tag is 16 bytes. -/
structure GcmSpec where
  pbkdf2 : Bytes → Bytes → Bytes
  enc : Bytes → Bytes → Bytes → Bytes
  dec : Bytes → Bytes → Bytes → Bytes
  authTag : Bytes → Bytes → Bytes → Bytes
  pbkdf2_len : ∀ s t, (pbkdf2 s t).length = keyLength
  dec_enc : ∀ k iv p, dec k iv (enc k iv p) = p
  tag_len : ∀ k iv c, (authTag k iv c).length = tagLength

/-- `EncryptionService.encrypt`: derive the key from the secret and the
fresh salt, encrypt under the fresh IV, and return
salt ∥ IV ∥ auth tag ∥ ciphertext as one buffer. -/
def encrypt (G : GcmSpec) (secret salt iv data : Bytes) : Bytes :=
  let key := G.pbkdf2 secret salt
  let encrypted := G.enc key iv data
  let tag := G.authTag key iv encrypted
  salt ++ iv ++ tag ++ encrypted

/-- The four fixed-length slices `decrypt` takes from the envelope:
`slice(0, 64)`, `slice(64, 80)`, `slice(80, 96)` and `slice(96)`. -/
def parseEnvelope (encryptedData : Bytes) : Bytes × Bytes × Bytes × Bytes :=
  (encryptedData.take saltLength,
   (encryptedData.drop saltLength).take ivLength,
   (encryptedData.drop (saltLength + ivLength)).take tagLength,
   encryptedData.drop (saltLength + ivLength + tagLength))

/-- `EncryptionService.decrypt`: slice the envelope, re-derive the key from
the extracted salt, and decrypt; GCM tag verification failure (or any
other internal throw — every failure path lands in the same catch) is the
single `Failed to decrypt data` error. -/
def decrypt (G : GcmSpec) (secret encryptedData : Bytes) : Except String Bytes :=
  let p := parseEnvelope encryptedData
  let key := G.pbkdf2 secret p.1
  if p.2.2.1 = G.authTag key p.2.1 p.2.2.2 then Except.ok (G.dec key p.2.1 p.2.2.2)
  else Except.error "Failed to decrypt data"

/-- `EncryptionService.hash`: salt ∥ PBKDF2(data, salt), with the salt an
explicit oracle argument. -/
def hash (G : GcmSpec) (data salt : Bytes) : Bytes := salt ++ G.pbkdf2 data salt

/-- `EncryptionService.verifyHash`: split the stored value at the salt
boundary, recompute the hash and compare with `crypto.timingSafeEqual`,
which throws (caught as the generic error) when the lengths differ. -/
def verifyHash (G : GcmSpec) (data storedHash : Bytes) : Except String Bool :=
  let salt := storedHash.take saltLength
  let originalHash := storedHash.drop saltLength
  let h := G.pbkdf2 data salt
  if h.length = originalHash.length then Except.ok (decide (h = originalHash))
  else Except.error "Failed to verify hash"

/-! ### A concrete instance of the primitive interface

Witnesses need a computable `GcmSpec` whose KDF and tag are injective (the
idealised collision-freeness the security claims assume of PBKDF2/GCM).
An injective encoding of byte lists into numbers provides both: each
element is written in binary digits followed by a `2` marker, the digit
stream is read as a base-3 numeral with a leading sentinel. -/

/-- Little-endian binary digits of a natural number (empty for zero). -/
def natDigits : Nat → List Nat
  | 0 => []
  | n + 1 => ((n + 1) % 2) :: natDigits ((n + 1) / 2)
decreasing_by simp_wf; omega

/-- One element of the stream: its binary digits closed by the marker 2. -/
def encElem (n : Nat) : List Nat := natDigits n ++ [2]

/-- The digit stream of a whole list. -/
def enc3 : List Nat → List Nat
  | [] => []
  | a :: t => encElem a ++ enc3 t

/-- Base-3 value of a digit stream, with a leading sentinel so distinct
streams of digits below 3 get distinct values. -/
def val3 : List Nat → Nat
  | [] => 1
  | d :: ds => 3 * val3 ds + d

/-- The injective encoding of a list of naturals into one natural. -/
def packList (l : List Nat) : Nat := val3 (enc3 l)

/-- Stream parser inverting `encElem`: reads digits until the marker 2,
returning the decoded element and the rest of the stream. -/
def parseElem : List Nat → Option (Nat × List Nat)
  | [] => none
  | d :: rest =>
    if d = 2 then some (0, rest)
    else (parseElem rest).map (fun p => (d + 2 * p.1, p.2))

/-- Toy KDF: an injective pairing of password and salt padded to 32
entries. -/
def toyKdf (password salt : Bytes) : Bytes :=
  packList [packList password, packList salt] :: List.replicate 31 0

/-- Toy authentication tag: an injective pairing of key, IV and ciphertext
padded to 16 entries. -/
def toyTag (key iv ct : Bytes) : Bytes :=
  packList [packList key, packList iv, packList ct] :: List.replicate 15 0

/-- A concrete `GcmSpec`: shift-by-one keystream, toy KDF and tag. -/
def toyGcm : GcmSpec where
  pbkdf2 := toyKdf
  enc := fun _ _ p => p.map (fun b => b + 1)
  dec := fun _ _ c => c.map (fun b => b - 1)
  authTag := toyTag
  pbkdf2_len := fun s t => by simp [toyKdf, keyLength]
  dec_enc := fun k iv p => by simp [List.map_map, Function.comp_def]
  tag_len := fun k iv c => by simp [toyTag, tagLength]

/-! ## Helper lemmas for the Except monad and the catch-all wrapper -/

@[simp] theorem exceptBind_ok {α β : Type} (a : α) (f : α → Except String β) :
    ((Except.ok a : Except String α) >>= f) = f a := rfl

@[simp] theorem exceptBind_error {α β : Type} (e : String) (f : α → Except String β) :
    ((Except.error e : Except String α) >>= f) = Except.error e := rfl

@[simp] theorem exceptPure {α : Type} (a : α) : (pure a : Except String α) = Except.ok a := rfl

@[simp] theorem catchAll_ok {α : Type} (msg : String) (v : α) :
    catchAll msg (Except.ok v) = Except.ok v := rfl

@[simp] theorem catchAll_error {α : Type} (msg e : String) :
    catchAll msg (Except.error e : Except String α) = Except.error msg := rfl

/-- The value the `verified` flag takes for a message carrying the given
signer id, checked against the optional armored sender key. -/
def verifiedOf : Option Nat → Option Armored → Bool
  | none, _ => false
  | some sid, some (Armored.pub okid) => okid == sid
  | some _, _ => false

/-- Inversion: a successful `decryptMessage` call forces the private key to
be armored private-key material unlocked by the given passphrase, the
ciphertext to be a message addressed to that key, and the result to carry
the message body together with the opportunistic `verified` flag. -/
theorem decryptMessage_ok_inv (ct pk : Armored) (pass : String) (vk : Option Armored)
    (r : DecryptResult) (h : decryptMessage ct pk pass vk = .ok r) :
    ∃ kid body signer, pk = Armored.priv kid pass ∧ ct = Armored.msg kid body signer ∧
      r = ⟨body, verifiedOf signer vk⟩ := by
  unfold decryptMessage decryptMessageResult at h
  cases pk with
  | pub k => simp [readPrivateKey] at h
  | msg a b c => simp [readPrivateKey] at h
  | junk s => simp [readPrivateKey] at h
  | priv kid kpass =>
    simp only [readPrivateKey, exceptBind_ok] at h
    unfold decryptKey at h
    by_cases hp : pass = kpass
    · simp only [hp, if_pos rfl, exceptBind_ok] at h
      cases ct with
      | pub k => simp [readMessage] at h
      | priv a b => simp [readMessage] at h
      | junk s => simp [readMessage] at h
      | msg rcpt body signer =>
        simp only [readMessage, exceptBind_ok] at h
        cases vk with
        | none =>
          simp only [parseVerificationKey, exceptPure, exceptBind_ok] at h
          unfold pgpDecrypt at h
          by_cases hr : rcpt = kid
          · simp only [hr, if_pos rfl, exceptBind_ok, exceptPure, catchAll_ok,
              Except.ok.injEq] at h
            refine ⟨kid, body, signer, by rw [hp], by rw [hr], ?_⟩
            cases signer with
            | none => simpa [verifiedOf, firstSigResolved] using h.symm
            | some sid => simpa [verifiedOf, firstSigResolved, sigCheck] using h.symm
          · simp [if_neg hr] at h
        | some s =>
          cases s with
          | pub okid =>
            simp only [parseVerificationKey, readKey, exceptBind_ok, exceptPure] at h
            unfold pgpDecrypt at h
            by_cases hr : rcpt = kid
            · simp only [hr, if_pos rfl, exceptBind_ok, exceptPure, catchAll_ok,
                Except.ok.injEq] at h
              refine ⟨kid, body, signer, by rw [hp], by rw [hr], ?_⟩
              cases signer with
              | none => simpa [verifiedOf, firstSigResolved] using h.symm
              | some sid => simpa [verifiedOf, firstSigResolved, sigCheck] using h.symm
            · simp [if_neg hr] at h
          | priv a b => simp [parseVerificationKey, readKey] at h
          | msg a b c => simp [parseVerificationKey, readKey] at h
          | junk a => simp [parseVerificationKey, readKey] at h
    · simp [if_neg hp] at h

/-- Inversion: a successful `decryptFile` call forces the private key to
unlock, the blob to be a parseable file addressed to that key, and the
result to carry the payload, the fallback-completed filename and the
opportunistic `verified` flag. -/
theorem decryptFile_ok_inv (b : BinBlob) (pk : Armored) (pass : String) (vk : Option Armored)
    (r : FileResult) (h : decryptFile b pk pass vk = .ok r) :
    ∃ kid f, pk = Armored.priv kid pass ∧ b = BinBlob.file f ∧ f.rcpt = kid ∧
      r = ⟨f.data, if f.filename = "" then "decrypted_file" else f.filename,
        verifiedOf f.signer vk⟩ := by
  unfold decryptFile decryptFileResult at h
  cases pk with
  | pub k => simp [readPrivateKey] at h
  | msg a b c => simp [readPrivateKey] at h
  | junk s => simp [readPrivateKey] at h
  | priv kid kpass =>
    simp only [readPrivateKey, exceptBind_ok] at h
    unfold decryptKey at h
    by_cases hp : pass = kpass
    · simp only [hp, if_pos rfl, exceptBind_ok] at h
      cases b with
      | junk bs => simp [readBinMessage] at h
      | file f =>
        simp only [readBinMessage, exceptBind_ok] at h
        cases vk with
        | none =>
          simp only [parseVerificationKey, exceptPure, exceptBind_ok] at h
          unfold pgpDecryptBin at h
          by_cases hr : f.rcpt = kid
          · simp only [hr, if_pos rfl, exceptBind_ok, exceptPure, catchAll_ok,
              Except.ok.injEq] at h
            refine ⟨kid, f, by rw [hp], rfl, hr, ?_⟩
            cases hs : f.signer with
            | none => simp [hs, verifiedOf, firstSigResolved] at h ⊢; exact h.symm
            | some sid =>
              simp [hs, verifiedOf, firstSigResolved, sigCheck] at h ⊢; exact h.symm
          · simp [if_neg hr] at h
        | some s =>
          cases s with
          | pub okid =>
            simp only [parseVerificationKey, readKey, exceptBind_ok, exceptPure] at h
            unfold pgpDecryptBin at h
            by_cases hr : f.rcpt = kid
            · simp only [hr, if_pos rfl, exceptBind_ok, exceptPure, catchAll_ok,
                Except.ok.injEq] at h
              refine ⟨kid, f, by rw [hp], rfl, hr, ?_⟩
              cases hs : f.signer with
              | none => simp [hs, verifiedOf, firstSigResolved] at h ⊢; exact h.symm
              | some sid =>
                simp [hs, verifiedOf, firstSigResolved, sigCheck] at h ⊢; exact h.symm
            · simp [if_neg hr] at h
          | priv a c => simp [parseVerificationKey, readKey] at h
          | msg a c d => simp [parseVerificationKey, readKey] at h
          | junk a => simp [parseVerificationKey, readKey] at h
    · simp [if_neg hp] at h

/-- C2: for every plaintext P and every matching key pair (public and
private key sharing a key id, private key protected by a passphrase),
decrypting the unsigned encryption of P with the private key and the
correct passphrase succeeds and returns P (with `verified = false` since
no signature is present). -/
theorem C2_message_roundtrip (P : String) (kid : Nat) (pass : String) :
    ∃ ct, encryptMessage P (Armored.pub kid) none none = .ok ct ∧
      decryptMessage ct (Armored.priv kid pass) pass none = .ok ⟨P, false⟩ := by
  refine ⟨Armored.msg kid P none, rfl, ?_⟩
  simp [decryptMessage, decryptMessageResult, readPrivateKey, decryptKey, readMessage,
    parseVerificationKey, pgpDecrypt, firstSigResolved]

/-- C3 counterexample: supplying a sender private key with an absent
passphrase does NOT make `encryptMessage` fail — the guard
`if (senderPrivateKey && passphrase)` is false, signing is silently
skipped, and an unsigned ciphertext is returned, contradicting the claim
that a wrong or absent passphrase aborts the operation. -/
theorem C3_counterexample :
    encryptMessage "hi" (Armored.pub 1) (some (Armored.priv 2 "pw")) none =
      .ok (Armored.msg 1 "hi" none) := rfl

/-- C3 amended: when BOTH a sender private key and a truthy (non-empty)
passphrase are supplied, a wrong passphrase makes the whole operation fail
with an error and never yields an unsigned ciphertext; when the sender
private key is supplied with an absent passphrase, signing is silently
skipped and an unsigned ciphertext is returned. -/
theorem C3_signing_abort_amended (m : String) (kid skid : Nat) (realpass given : String)
    (hwrong : given ≠ realpass) (hne : given ≠ "") :
    encryptMessage m (Armored.pub kid) (some (Armored.priv skid realpass)) (some given) =
      .error "Kunne ikke kryptere beskeden" ∧
    encryptMessage m (Armored.pub kid) (some (Armored.priv skid realpass)) none =
      .ok (Armored.msg kid m none) := by
  refine ⟨?_, rfl⟩
  simp [encryptMessage, encryptMessageResult, readKey, readPrivateKey, decryptKey,
    hne, hwrong]

/-- Witness for C3 amended at concrete inputs. -/
theorem C3_signing_abort_amended_witness :
    ("x" : String) ≠ "pw" ∧ ("x" : String) ≠ "" ∧
    (encryptMessage "m" (Armored.pub 1) (some (Armored.priv 2 "pw")) (some "x") =
        .error "Kunne ikke kryptere beskeden" ∧
      encryptMessage "m" (Armored.pub 1) (some (Armored.priv 2 "pw")) none =
        .ok (Armored.msg 1 "m" none)) :=
  ⟨by decide, by decide, C3_signing_abort_amended "m" 1 2 "pw" "x" (by decide) (by decide)⟩

/-- C4: whenever `decryptMessage` succeeds, the `verified` flag is false if
the ciphertext carries no signature or no sender public key was supplied;
and for a signed ciphertext checked against the wrong sender key the call
still succeeds, returning the plaintext with `verified = false` rather
than aborting. -/
theorem C4_opportunistic_verification :
    (∀ (ct pk : Armored) (pass : String) (vk : Option Armored) (r : DecryptResult),
        decryptMessage ct pk pass vk = .ok r →
        carriesSig ct = false ∨ vk = none → r.verified = false) ∧
    (∀ (body : String) (sid kid : Nat) (realpass : String) (okid : Nat),
        okid ≠ sid →
        decryptMessage (Armored.msg kid body (some sid)) (Armored.priv kid realpass)
          realpass (some (Armored.pub okid)) = .ok ⟨body, false⟩) := by
  constructor
  · intro ct pk pass vk r h hcase
    obtain ⟨kid, body, signer, hpk, hct, hr⟩ := decryptMessage_ok_inv ct pk pass vk r h
    subst hr
    rcases hcase with hsig | hvk
    · cases signer with
      | none => rfl
      | some sid => rw [hct] at hsig; simp [carriesSig] at hsig
    · subst hvk
      cases signer with
      | none => rfl
      | some sid => rfl
  · intro body sid kid realpass okid hne
    simp [decryptMessage, decryptMessageResult, readPrivateKey, decryptKey, readMessage,
      parseVerificationKey, readKey, pgpDecrypt, firstSigResolved, sigCheck, hne]

/-- Witness for C4 at concrete inputs: an unsigned message decrypted
without a sender key has `verified = false`, and a signed message checked
against the wrong sender key still decrypts with `verified = false`. -/
theorem C4_opportunistic_verification_witness :
    (⟨"b", false⟩ : DecryptResult).verified = false ∧
    decryptMessage (Armored.msg 1 "b" (some 5)) (Armored.priv 1 "p") "p"
      (some (Armored.pub 6)) = .ok ⟨"b", false⟩ :=
  ⟨C4_opportunistic_verification.1 (Armored.msg 1 "b" none) (Armored.priv 1 "p") "p" none
      ⟨"b", false⟩ rfl (Or.inl rfl),
    C4_opportunistic_verification.2 "b" 5 1 "p" 6 (by decide)⟩

/-- C5 counterexample: a wrong passphrase and a corrupted ciphertext
produce the very same error value at the call boundary (the catch-all
rethrows the single generic message), so the caller cannot distinguish a
KeyUnlockFailure from a DecryptionFailure. -/
theorem C5_counterexample :
    decryptMessage (Armored.msg 1 "hi" none) (Armored.priv 1 "pw") "wrong" none =
      .error "Kunne ikke dekryptere beskeden" ∧
    decryptMessage (Armored.junk "corrupted") (Armored.priv 1 "pw") "pw" none =
      .error "Kunne ikke dekryptere beskeden" := ⟨rfl, rfl⟩

/-- C5 amended: calling `decryptMessage` with a wrong passphrase does raise
an error, but it is the same single generic error raised for a corrupted
ciphertext — the two failure kinds are not distinguishable at the call
boundary. -/
theorem C5_single_error_kind_amended (ct : Armored) (kid : Nat) (realpass given : String)
    (vk : Option Armored) (s : String) (hwrong : given ≠ realpass) :
    decryptMessage ct (Armored.priv kid realpass) given vk =
      .error "Kunne ikke dekryptere beskeden" ∧
    decryptMessage (Armored.junk s) (Armored.priv kid realpass) realpass vk =
      .error "Kunne ikke dekryptere beskeden" := by
  constructor
  · simp [decryptMessage, decryptMessageResult, readPrivateKey, decryptKey, hwrong]
  · simp [decryptMessage, decryptMessageResult, readPrivateKey, decryptKey, readMessage]

/-- Witness for C5 amended at concrete inputs. -/
theorem C5_single_error_kind_amended_witness :
    ("wrong" : String) ≠ "pw" ∧
    (decryptMessage (Armored.msg 1 "hi" none) (Armored.priv 1 "pw") "wrong" none =
        .error "Kunne ikke dekryptere beskeden" ∧
      decryptMessage (Armored.junk "zz") (Armored.priv 1 "pw") "pw" none =
        .error "Kunne ikke dekryptere beskeden") :=
  ⟨by decide, C5_single_error_kind_amended (Armored.msg 1 "hi" none) 1 "pw" "wrong" none "zz"
    (by decide)⟩

/-- C10: every successfully decrypted file ciphertext that carries no
embedded filename yields the fixed fallback filename `decrypted_file`. -/
theorem C10_fallback_filename (b : BinBlob) (pk : Armored) (pass : String)
    (vk : Option Armored) (r : FileResult)
    (h : decryptFile b pk pass vk = .ok r) (hname : embeddedFilename b = "") :
    r.filename = "decrypted_file" := by
  obtain ⟨kid, f, hpk, hb, hr, hres⟩ := decryptFile_ok_inv b pk pass vk r h
  subst hres hb
  simp [embeddedFilename] at hname
  simp [hname]

/-- Witness for C10 at concrete inputs. -/
theorem C10_fallback_filename_witness :
    embeddedFilename (BinBlob.file ⟨1, [7], "", none⟩) = "" ∧
    (FileResult.mk [7] "decrypted_file" false).filename = "decrypted_file" :=
  ⟨rfl, C10_fallback_filename (BinBlob.file ⟨1, [7], "", none⟩) (Armored.priv 1 "p") "p" none
      ⟨[7], "decrypted_file", false⟩ rfl rfl⟩

/-! ## Lemmas about the injective list encoding -/

theorem val3_pos (ds : List Nat) : 1 ≤ val3 ds := by
  induction ds with
  | nil => exact le_refl 1
  | cons d ds ih => simp only [val3]; omega

theorem val3_inj : ∀ xs ys : List Nat, (∀ d ∈ xs, d < 3) → (∀ d ∈ ys, d < 3) →
    val3 xs = val3 ys → xs = ys := by
  intro xs
  induction xs with
  | nil =>
    intro ys _ hy h
    cases ys with
    | nil => rfl
    | cons e es =>
      exfalso
      have h1 := val3_pos es
      have h2 : e < 3 := hy e (by simp)
      simp only [val3] at h
      omega
  | cons d ds ih =>
    intro ys hx hy h
    cases ys with
    | nil =>
      exfalso
      have h1 := val3_pos ds
      have h2 : d < 3 := hx d (by simp)
      simp only [val3] at h
      omega
    | cons e es =>
      have hd : d < 3 := hx d (by simp)
      have he : e < 3 := hy e (by simp)
      simp only [val3] at h
      have hde : d = e ∧ val3 ds = val3 es := by omega
      have := ih es (fun x hxm => hx x (by simp [hxm])) (fun x hxm => hy x (by simp [hxm]))
        hde.2
      rw [hde.1, this]

theorem natDigits_lt_two (n : Nat) : ∀ d ∈ natDigits n, d < 2 := by
  induction n using Nat.strong_induction_on with
  | _ n ih =>
    match n with
    | 0 => simp [natDigits]
    | m + 1 =>
      rw [natDigits]
      intro d hd
      rcases List.mem_cons.mp hd with h | h
      · omega
      · exact ih ((m + 1) / 2) (Nat.div_lt_self (Nat.succ_pos m) one_lt_two) d h

theorem enc3_digits (l : List Nat) : ∀ d ∈ enc3 l, d < 3 := by
  induction l with
  | nil => simp [enc3]
  | cons a t ih =>
    intro d hd
    simp only [enc3, encElem, List.append_assoc, List.mem_append] at hd
    rcases hd with h | h
    · have := natDigits_lt_two a d h
      omega
    · rcases h with h2 | h2
      · simp at h2; omega
      · exact ih d h2

theorem parseElem_natDigits (n : Nat) (rest : List Nat) :
    parseElem (natDigits n ++ 2 :: rest) = some (n, rest) := by
  induction n using Nat.strong_induction_on with
  | _ n ih =>
    match n with
    | 0 => simp [natDigits, parseElem]
    | m + 1 =>
      rw [natDigits, List.cons_append, parseElem]
      have h2 : ¬((m + 1) % 2 = 2) := by omega
      rw [if_neg h2, ih ((m + 1) / 2) (Nat.div_lt_self (Nat.succ_pos m) one_lt_two)]
      have : (m + 1) % 2 + 2 * ((m + 1) / 2) = m + 1 := by omega
      simp [this]

theorem enc3_inj : ∀ xs ys : List Nat, enc3 xs = enc3 ys → xs = ys := by
  intro xs
  induction xs with
  | nil =>
    intro ys h
    cases ys with
    | nil => rfl
    | cons b u =>
      exfalso
      have : enc3 (b :: u) = [] := h.symm
      simp [enc3, encElem] at this
  | cons a t ih =>
    intro ys h
    cases ys with
    | nil =>
      exfalso
      have : enc3 (a :: t) = [] := h
      simp [enc3, encElem] at this
    | cons b u =>
      have h1 : parseElem (enc3 (a :: t)) = some (a, enc3 t) := by
        show parseElem ((natDigits a ++ [2]) ++ enc3 t) = _
        rw [List.append_assoc, List.singleton_append]
        exact parseElem_natDigits a (enc3 t)
      have h2 : parseElem (enc3 (b :: u)) = some (b, enc3 u) := by
        show parseElem ((natDigits b ++ [2]) ++ enc3 u) = _
        rw [List.append_assoc, List.singleton_append]
        exact parseElem_natDigits b (enc3 u)
      rw [h] at h1
      rw [h2] at h1
      have h1' : (b, enc3 u) = (a, enc3 t) := Option.some.inj h1
      have hba : b = a := congrArg Prod.fst h1'
      have hut : enc3 u = enc3 t := congrArg Prod.snd h1'
      rw [← hba, ih u hut.symm]

theorem packList_inj (xs ys : List Nat) (h : packList xs = packList ys) : xs = ys :=
  enc3_inj xs ys (val3_inj _ _ (enc3_digits xs) (enc3_digits ys) h)

theorem toyKdf_inj {p1 s1 p2 s2 : Bytes} (h : toyKdf p1 s1 = toyKdf p2 s2) :
    p1 = p2 ∧ s1 = s2 := by
  simp only [toyKdf, List.cons.injEq] at h
  have h2 := packList_inj _ _ h.1
  simp only [List.cons.injEq, and_true] at h2
  exact ⟨packList_inj _ _ h2.1, packList_inj _ _ h2.2⟩

theorem toyTag_inj {k1 i1 c1 k2 i2 c2 : Bytes} (h : toyTag k1 i1 c1 = toyTag k2 i2 c2) :
    k1 = k2 ∧ i1 = i2 ∧ c1 = c2 := by
  simp only [toyTag, List.cons.injEq] at h
  have h2 := packList_inj _ _ h.1
  simp only [List.cons.injEq, and_true] at h2
  exact ⟨packList_inj _ _ h2.1, packList_inj _ _ h2.2.1, packList_inj _ _ h2.2.2⟩

/-! ## Envelope lemmas and the symmetric-service claims -/

/-- Slicing a well-formed envelope recovers exactly the four concatenated
fields. -/
theorem parseEnvelope_append (salt iv tag ct : Bytes)
    (hsalt : salt.length = saltLength) (hiv : iv.length = ivLength)
    (htag : tag.length = tagLength) :
    parseEnvelope (salt ++ iv ++ tag ++ ct) = (salt, iv, tag, ct) := by
  have e : salt ++ iv ++ tag ++ ct = salt ++ (iv ++ (tag ++ ct)) := by
    simp [List.append_assoc]
  have c1 : (salt ++ iv ++ tag ++ ct).take saltLength = salt := by
    rw [e]
    exact List.take_left' hsalt
  have c2 : ((salt ++ iv ++ tag ++ ct).drop saltLength).take ivLength = iv := by
    rw [e, List.drop_left' hsalt]
    exact List.take_left' hiv
  have c3 : ((salt ++ iv ++ tag ++ ct).drop (saltLength + ivLength)).take tagLength = tag := by
    rw [show salt ++ iv ++ tag ++ ct = (salt ++ iv) ++ (tag ++ ct) by simp [List.append_assoc]]
    rw [List.drop_left' (by simp [hsalt, hiv])]
    exact List.take_left' htag
  have c4 : (salt ++ iv ++ tag ++ ct).drop (saltLength + ivLength + tagLength) = ct :=
    List.drop_left' (by simp [hsalt, hiv, htag, Nat.add_assoc])
  unfold parseEnvelope
  rw [c1, c2, c3, c4]

/-- Decrypting a freshly produced envelope with the same secret returns
the plaintext. -/
theorem decrypt_encrypt (G : GcmSpec) (secret data salt iv : Bytes)
    (hsalt : salt.length = saltLength) (hiv : iv.length = ivLength) :
    decrypt G secret (encrypt G secret salt iv data) = .ok data := by
  unfold decrypt encrypt
  rw [parseEnvelope_append salt iv _ _ hsalt hiv (G.tag_len _ _ _)]
  simp [G.dec_enc]

/-- Overwriting position `i` with a value different from the one stored
there changes the list. -/
theorem set_ne_self {l : List Nat} {i b : Nat} (hi : i < l.length) (hb : b ≠ l.getD i 0) :
    l.set i b ≠ l := by
  intro he
  apply hb
  have h1 : (l.set i b).getD i 0 = b := by
    rw [List.getD_eq_getElem _ _ (by simpa using hi)]
    simp
  rw [← h1, he]

/-- When the tag slice of an envelope does not match the tag recomputed
from its other slices, `decrypt` fails with the generic error. -/
theorem decrypt_tag_mismatch (G : GcmSpec) (secret salt iv tg ct : Bytes)
    (hsalt : salt.length = saltLength) (hiv : iv.length = ivLength)
    (hltag : tg.length = tagLength)
    (hne : tg ≠ G.authTag (G.pbkdf2 secret salt) iv ct) :
    decrypt G secret (salt ++ iv ++ tg ++ ct) = .error "Failed to decrypt data" := by
  unfold decrypt
  rw [parseEnvelope_append salt iv tg ct hsalt hiv hltag]
  simp [hne]

/-- C1: for every plaintext and secret, decrypting the envelope produced
by `encrypt` with the same secret returns the plaintext (salt and IV of
the lengths `crypto.randomBytes` produces, primitives any implementation
of the documented AES-GCM/PBKDF2 contract). -/
theorem C1_symmetric_roundtrip (G : GcmSpec) (secret data salt iv : Bytes)
    (hsalt : salt.length = saltLength) (hiv : iv.length = ivLength) :
    decrypt G secret (encrypt G secret salt iv data) = .ok data :=
  decrypt_encrypt G secret data salt iv hsalt hiv

/-- Witness for C1 at concrete inputs. -/
theorem C1_symmetric_roundtrip_witness :
    (List.replicate 64 0).length = saltLength ∧ (List.replicate 16 1).length = ivLength ∧
    decrypt toyGcm [3] (encrypt toyGcm [3] (List.replicate 64 0) (List.replicate 16 1) [7, 8]) =
      .ok [7, 8] :=
  ⟨by simp [saltLength], by simp [ivLength],
    C1_symmetric_roundtrip toyGcm [3] [7, 8] (List.replicate 64 0) (List.replicate 16 1)
      (by simp [saltLength]) (by simp [ivLength])⟩

/-- C6: flipping any single byte of an envelope (replacing the byte at any
in-range position by a different value) makes `decrypt` fail with an
error; nothing but the error is returned.  The hypotheses on `G` are the
idealised collision-freeness of the primitives: the KDF is injective in
the salt for the given secret and the GCM tag is injective in key, IV and
ciphertext. -/
theorem C6_tamper_detection (G : GcmSpec) (secret data salt iv : Bytes)
    (hsalt : salt.length = saltLength) (hiv : iv.length = ivLength)
    (hkdf : ∀ s1 s2 : Bytes, G.pbkdf2 secret s1 = G.pbkdf2 secret s2 → s1 = s2)
    (htag : ∀ k1 i1 c1 k2 i2 c2 : Bytes, G.authTag k1 i1 c1 = G.authTag k2 i2 c2 →
      k1 = k2 ∧ i1 = i2 ∧ c1 = c2)
    (i b : Nat) (hi : i < (encrypt G secret salt iv data).length)
    (hb : b ≠ (encrypt G secret salt iv data).getD i 0) :
    decrypt G secret ((encrypt G secret salt iv data).set i b) =
      .error "Failed to decrypt data" := by
  set key := G.pbkdf2 secret salt with hkey
  set ct := G.enc key iv data with hct
  set tg := G.authTag key iv ct with htg
  have hE : encrypt G secret salt iv data = salt ++ iv ++ tg ++ ct := rfl
  have hltag : tg.length = tagLength := by rw [htg]; exact G.tag_len key iv ct
  rw [hE] at hi hb ⊢
  have hsl : salt.length = 64 := hsalt
  have hil : iv.length = 16 := hiv
  have htl : tg.length = 16 := hltag
  have hlen1 : (salt ++ iv).length = 80 := by simp [hsl, hil]
  have hlen2 : ((salt ++ iv) ++ tg).length = 96 := by simp [hsl, hil, htl]
  have hElen : (salt ++ iv ++ tg ++ ct).length = 96 + ct.length := by
    simp [hsl, hil, htl]
    omega
  rcases Nat.lt_or_ge i 64 with h1 | h1
  · -- the flip lands in the salt field
    have l3 : i < salt.length := by omega
    have l2 : i < (salt ++ iv).length := by omega
    have l1 : i < ((salt ++ iv) ++ tg).length := by omega
    have hset : (salt ++ iv ++ tg ++ ct).set i b = salt.set i b ++ iv ++ tg ++ ct := by
      rw [List.set_append_left i b l1, List.set_append_left i b l2,
        List.set_append_left i b l3]
    rw [hset]
    have hbd : b ≠ salt.getD i 0 := by
      rw [List.getD_append _ _ _ _ l1, List.getD_append _ _ _ _ l2,
        List.getD_append _ _ _ _ l3] at hb
      exact hb
    refine decrypt_tag_mismatch G secret _ iv tg ct (by simp [hsl, saltLength]) hiv hltag ?_
    intro hcond
    rw [htg] at hcond
    have h3 := htag key iv ct (G.pbkdf2 secret (salt.set i b)) iv ct hcond
    have h4 : salt = salt.set i b := hkdf salt (salt.set i b) (by rw [← hkey]; exact h3.1)
    exact set_ne_self l3 hbd h4.symm
  rcases Nat.lt_or_ge i 80 with h2 | h2
  · -- the flip lands in the IV field
    have l1 : i < ((salt ++ iv) ++ tg).length := by omega
    have l2 : i < (salt ++ iv).length := by omega
    have l3 : salt.length ≤ i := by omega
    have hivlt : i - salt.length < iv.length := by omega
    have hset : (salt ++ iv ++ tg ++ ct).set i b =
        salt ++ iv.set (i - salt.length) b ++ tg ++ ct := by
      rw [List.set_append_left i b l1, List.set_append_left i b l2,
        List.set_append_right i b l3]
    rw [hset]
    have hbd : b ≠ iv.getD (i - salt.length) 0 := by
      rw [List.getD_append _ _ _ _ l1, List.getD_append _ _ _ _ l2,
        List.getD_append_right _ _ _ _ l3] at hb
      exact hb
    refine decrypt_tag_mismatch G secret salt _ tg ct hsalt (by simp [hil, ivLength]) hltag ?_
    intro hcond
    rw [htg, ← hkey] at hcond
    have h3 := htag key iv ct key (iv.set (i - salt.length) b) ct hcond
    exact set_ne_self hivlt hbd h3.2.1.symm
  rcases Nat.lt_or_ge i 96 with h3 | h3
  · -- the flip lands in the auth tag field
    have l1 : i < ((salt ++ iv) ++ tg).length := by omega
    have l2 : (salt ++ iv).length ≤ i := by omega
    have htaglt : i - (salt ++ iv).length < tg.length := by omega
    have hset : (salt ++ iv ++ tg ++ ct).set i b =
        salt ++ iv ++ tg.set (i - (salt ++ iv).length) b ++ ct := by
      rw [List.set_append_left i b l1, List.set_append_right i b l2]
    rw [hset]
    have hbd : b ≠ tg.getD (i - (salt ++ iv).length) 0 := by
      rw [List.getD_append _ _ _ _ l1, List.getD_append_right _ _ _ _ l2] at hb
      exact hb
    refine decrypt_tag_mismatch G secret salt iv _ ct hsalt hiv
      (by simp [htl, tagLength]) ?_
    intro hcond
    rw [← hkey, ← htg] at hcond
    exact set_ne_self htaglt hbd hcond
  · -- the flip lands in the ciphertext field
    have l1 : ((salt ++ iv) ++ tg).length ≤ i := by omega
    have hctlt : i - ((salt ++ iv) ++ tg).length < ct.length := by omega
    have hset : (salt ++ iv ++ tg ++ ct).set i b =
        salt ++ iv ++ tg ++ ct.set (i - ((salt ++ iv) ++ tg).length) b := by
      rw [List.set_append_right i b l1]
    rw [hset]
    have hbd : b ≠ ct.getD (i - ((salt ++ iv) ++ tg).length) 0 := by
      rw [List.getD_append_right _ _ _ _ l1] at hb
      exact hb
    refine decrypt_tag_mismatch G secret salt iv tg _ hsalt hiv hltag ?_
    intro hcond
    rw [htg, ← hkey] at hcond
    have h4 := htag key iv ct key iv (ct.set (i - ((salt ++ iv) ++ tg).length) b) hcond
    exact set_ne_self hctlt hbd h4.2.2.symm

/-- Witness for C6 at concrete inputs (byte 0 of the envelope flipped from
0 to 5). -/
theorem C6_tamper_detection_witness :
    0 < (encrypt toyGcm [3] (List.replicate 64 0) (List.replicate 16 1) [7]).length ∧
    (5 : Nat) ≠ (encrypt toyGcm [3] (List.replicate 64 0) (List.replicate 16 1) [7]).getD 0 0 ∧
    decrypt toyGcm [3]
        ((encrypt toyGcm [3] (List.replicate 64 0) (List.replicate 16 1) [7]).set 0 5) =
      .error "Failed to decrypt data" :=
  ⟨by decide, by decide,
    C6_tamper_detection toyGcm [3] [7] (List.replicate 64 0) (List.replicate 16 1)
      (by simp [saltLength]) (by simp [ivLength])
      (fun s1 s2 h => (toyKdf_inj h).2)
      (fun k1 i1 c1 k2 i2 c2 h => toyTag_inj h)
      0 5 (by decide) (by decide)⟩

/-- C7: the envelope is laid out as salt ∥ IV ∥ auth tag ∥ ciphertext with
the protocol constants 64/16/16, and the four fields `decrypt` extracts by
fixed-length slicing equal the four fields `encrypt` concatenated. -/
theorem C7_envelope_layout (G : GcmSpec) (secret data salt iv : Bytes)
    (hsalt : salt.length = saltLength) (hiv : iv.length = ivLength) :
    saltLength = 64 ∧ ivLength = 16 ∧ tagLength = 16 ∧
    encrypt G secret salt iv data =
      salt ++ iv ++ G.authTag (G.pbkdf2 secret salt) iv (G.enc (G.pbkdf2 secret salt) iv data)
        ++ G.enc (G.pbkdf2 secret salt) iv data ∧
    parseEnvelope (encrypt G secret salt iv data) =
      (salt, iv, G.authTag (G.pbkdf2 secret salt) iv (G.enc (G.pbkdf2 secret salt) iv data),
        G.enc (G.pbkdf2 secret salt) iv data) :=
  ⟨rfl, rfl, rfl, rfl,
    parseEnvelope_append salt iv
      (G.authTag (G.pbkdf2 secret salt) iv (G.enc (G.pbkdf2 secret salt) iv data))
      (G.enc (G.pbkdf2 secret salt) iv data) hsalt hiv
      (G.tag_len (G.pbkdf2 secret salt) iv (G.enc (G.pbkdf2 secret salt) iv data))⟩

/-- Witness for C7 at concrete inputs. -/
theorem C7_envelope_layout_witness :
    (List.replicate 64 0).length = saltLength ∧ (List.replicate 16 1).length = ivLength ∧
    parseEnvelope (encrypt toyGcm [3] (List.replicate 64 0) (List.replicate 16 1) [7]) =
      (List.replicate 64 0, List.replicate 16 1,
        toyGcm.authTag (toyGcm.pbkdf2 [3] (List.replicate 64 0)) (List.replicate 16 1)
          (toyGcm.enc (toyGcm.pbkdf2 [3] (List.replicate 64 0)) (List.replicate 16 1) [7]),
        toyGcm.enc (toyGcm.pbkdf2 [3] (List.replicate 64 0)) (List.replicate 16 1) [7]) :=
  ⟨by simp [saltLength], by simp [ivLength],
    (C7_envelope_layout toyGcm [3] [7] (List.replicate 64 0) (List.replicate 16 1)
      (by simp [saltLength]) (by simp [ivLength])).2.2.2.2⟩

/-- C8: verifying a value against its own hash succeeds, and verifying it
against the hash of a different value fails, under the idealised
collision-freeness of the KDF for the salt in use. -/
theorem C8_hash_verification (G : GcmSpec) (d d2 salt : Bytes)
    (hsalt : salt.length = saltLength)
    (hinj : ∀ x y : Bytes, G.pbkdf2 x salt = G.pbkdf2 y salt → x = y)
    (hne : d ≠ d2) :
    verifyHash G d (hash G d salt) = .ok true ∧
    verifyHash G d (hash G d2 salt) = .ok false := by
  constructor
  · unfold verifyHash hash
    rw [List.take_left' hsalt, List.drop_left' hsalt]
    simp
  · unfold verifyHash hash
    rw [List.take_left' hsalt, List.drop_left' hsalt]
    have hlen : (G.pbkdf2 d salt).length = (G.pbkdf2 d2 salt).length := by
      rw [G.pbkdf2_len, G.pbkdf2_len]
    have hneq : G.pbkdf2 d salt ≠ G.pbkdf2 d2 salt := fun h => hne (hinj d d2 h)
    simp [hlen, hneq]

/-- Witness for C8 at concrete inputs. -/
theorem C8_hash_verification_witness :
    (List.replicate 64 0).length = saltLength ∧ ([1] : Bytes) ≠ [2] ∧
    (verifyHash toyGcm [1] (hash toyGcm [1] (List.replicate 64 0)) = .ok true ∧
      verifyHash toyGcm [1] (hash toyGcm [2] (List.replicate 64 0)) = .ok false) :=
  ⟨by simp [saltLength], by decide,
    C8_hash_verification toyGcm [1] [2] (List.replicate 64 0) (by simp [saltLength])
      (fun x y h => (toyKdf_inj h).1) (by decide)⟩

/-- C9: two calls of `encrypt` on the same plaintext and secret with
distinct fresh randomness (different salt or different IV) produce two
different envelopes, and both envelopes still decrypt to the plaintext. -/
theorem C9_fresh_randomness (G : GcmSpec) (secret data salt1 iv1 salt2 iv2 : Bytes)
    (h1 : salt1.length = saltLength) (hi1 : iv1.length = ivLength)
    (h2 : salt2.length = saltLength) (hi2 : iv2.length = ivLength)
    (hfresh : salt1 ≠ salt2 ∨ iv1 ≠ iv2) :
    encrypt G secret salt1 iv1 data ≠ encrypt G secret salt2 iv2 data ∧
    decrypt G secret (encrypt G secret salt1 iv1 data) = .ok data ∧
    decrypt G secret (encrypt G secret salt2 iv2 data) = .ok data := by
  refine ⟨?_, decrypt_encrypt G secret data salt1 iv1 h1 hi1,
    decrypt_encrypt G secret data salt2 iv2 h2 hi2⟩
  intro he
  have hE1 : encrypt G secret salt1 iv1 data =
      salt1 ++ iv1 ++ G.authTag (G.pbkdf2 secret salt1) iv1
        (G.enc (G.pbkdf2 secret salt1) iv1 data) ++ G.enc (G.pbkdf2 secret salt1) iv1 data := rfl
  have hE2 : encrypt G secret salt2 iv2 data =
      salt2 ++ iv2 ++ G.authTag (G.pbkdf2 secret salt2) iv2
        (G.enc (G.pbkdf2 secret salt2) iv2 data) ++ G.enc (G.pbkdf2 secret salt2) iv2 data := rfl
  have hpe := congrArg parseEnvelope he
  rw [hE1, hE2,
    parseEnvelope_append salt1 iv1 _ _ h1 hi1 (G.tag_len _ _ _),
    parseEnvelope_append salt2 iv2 _ _ h2 hi2 (G.tag_len _ _ _)] at hpe
  simp only [Prod.mk.injEq] at hpe
  rcases hfresh with hf | hf
  · exact hf hpe.1
  · exact hf hpe.2.1

/-- Witness for C9 at concrete inputs (two distinct salts). -/
theorem C9_fresh_randomness_witness :
    (List.replicate 64 0 : Bytes) ≠ 1 :: List.replicate 63 0 ∧
    (encrypt toyGcm [3] (List.replicate 64 0) (List.replicate 16 1) [7] ≠
        encrypt toyGcm [3] (1 :: List.replicate 63 0) (List.replicate 16 1) [7] ∧
      decrypt toyGcm [3]
          (encrypt toyGcm [3] (List.replicate 64 0) (List.replicate 16 1) [7]) = .ok [7] ∧
      decrypt toyGcm [3]
          (encrypt toyGcm [3] (1 :: List.replicate 63 0) (List.replicate 16 1) [7]) =
        .ok [7]) :=
  ⟨by decide,
    C9_fresh_randomness toyGcm [3] [7] (List.replicate 64 0) (List.replicate 16 1)
      (1 :: List.replicate 63 0) (List.replicate 16 1) (by simp [saltLength])
      (by simp [ivLength]) (by simp [saltLength]) (by simp [ivLength]) (Or.inl (by decide))⟩

end Webmail
